import Mathlib

/-!
A shallow embedding of the 2D Navier–Stokes grid simulator
(`NavierStokesSimulator` in `navierstokes.py`).

NumPy `(height, width)` float arrays are idealized as row-major lists of
rationals.  Out-of-range NumPy indexing (an `IndexError` in Python) is
modelled by `Option`: every operation that indexes returns `none` exactly
when the Python code would raise.  `np.sqrt(width * height)` is modelled
by `Nat.sqrt (width * height)`, which agrees with the float computation
whenever `width * height` is a perfect square; every concrete grid used
below is square, where the two coincide exactly.
-/

namespace NS

/-- A 2D scalar field: a list of `height` rows, each a list of `width` rationals,
mirroring a NumPy array indexed `[row, col]`. -/
abbrev Field := List (List ℚ)

/-- The shape of a field: the list of its row lengths. -/
def shape (f : Field) : List ℕ := f.map List.length

/-- Rectangularity: `f` is an `h × w` array (  h rows, each of length w). -/
def WFfield (f : Field) (h w : ℕ) : Prop := shape f = List.replicate h w

instance (f : Field) (h w : ℕ) : Decidable (WFfield f h w) :=
  inferInstanceAs (Decidable (shape f = List.replicate h w))

/-- Checked read `field[i, j]`: `none` when NumPy would raise `IndexError`. -/
def fget (f : Field) (i j : ℕ) : Option ℚ :=
  f[i]?.bind fun r => r[j]?

/-- Checked write `field[i, j] = x`: `none` when NumPy would raise `IndexError`. -/
def fset (f : Field) (i j : ℕ) (x : ℚ) : Option Field :=
  match f[i]? with
  | none => none
  | some r => if j < r.length then some (f.set i (r.set j x)) else none

/-- Total read used in specification statements: defaults to `0` out of range. -/
def getE (f : Field) (i j : ℕ) : ℚ := (f[i]?.getD [])[j]?.getD 0

/-- The slice assignment `field[i, :] = 0`. -/
def zeroRow (f : Field) (i : ℕ) : Option Field :=
  match f[i]? with
  | none => none
  | some r => some (f.set i (List.replicate r.length 0))

/-- The slice assignment `field[:, j] = 0` (requires `j` in range in every row). -/
def zeroCol (f : Field) (j : ℕ) : Option Field :=
  if ∀ r ∈ f, j < r.length then some (f.map fun r => r.set j 0) else none

/-- A corner assignment `field[ci, cj] = 0.5 * (field[ai, aj] + field[bi, bj])`. -/
def setCorner (f : Field) (ci cj ai aj bi bj : ℕ) : Option Field := do
  let x ← fget f ai aj
  let y ← fget f bi bj
  fset f ci cj ((1 / 2 : ℚ) * (x + y))

/-- `_set_boundary(field)`: zero all four edges, then set each corner to half the
sum of its two orthogonally adjacent boundary cells, in source order.  The
negative NumPy indices `-1` and `-2` resolve against the array's own
dimensions, as in the source. -/
def setBoundary (f : Field) : Option Field := do
  let h := f.length
  let w := (f.headD []).length
  let f ← zeroRow f 0
  let f ← zeroRow f (h - 1)
  let f ← zeroCol f 0
  let f ← zeroCol f (w - 1)
  let f ← setCorner f 0 0 1 0 0 1
  let f ← setCorner f 0 (w - 1) 1 (w - 1) 0 (w - 2)
  let f ← setCorner f (h - 1) 0 (h - 2) 0 (h - 1) 1
  let f ← setCorner f (h - 1) (w - 1) (h - 2) (w - 1) (h - 1) (w - 2)
  pure f

/-- Simulation parameters held by the simulator object. -/
structure Params where
  width : ℕ
  height : ℕ
  viscosity : ℚ
  dt : ℚ
deriving DecidableEq, Repr

/-- The loop `range(1, n - 1)` over interior indices of a dimension of size `n`. -/
def interior (n : ℕ) : List ℕ := List.range' 1 (n - 2)

/-- The slice copy `field[:] = field_prev[:]` (requires identical shapes). -/
def copyInto (dst src : Field) : Option Field :=
  if shape dst = shape src then some src else none

/-- The body of one Gauss–Seidel update of `diffuse` at cell `(i, j)`:
`field[i,j] = (field_prev[i,j] + a*(field[i+1,j] + field[i-1,j] + field[i,j+1]
+ field[i,j-1])) / (1 + 4*a)`. -/
def diffuseCell (a : ℚ) (field_prev f : Field) (i j : ℕ) : Option Field := do
  let c ← fget field_prev i j
  let n1 ← fget f (i + 1) j
  let n2 ← fget f (i - 1) j
  let n3 ← fget f i (j + 1)
  let n4 ← fget f i (j - 1)
  fset f i j ((c + a * (n1 + n2 + n3 + n4)) / (1 + 4 * a))

/-- `diffuse(field, field_prev, diffusion_rate)`: copy, then 20 Gauss–Seidel
sweeps over the interior in source loop order, applying `_set_boundary` after
each sweep. -/
def diffuse (p : Params) (field field_prev : Field) (rate : ℚ) : Option Field := do
  let a := p.dt * rate * (p.width : ℚ) * (p.height : ℚ)
  let f ← copyInto field field_prev
  (List.range 20).foldlM (fun f _ => do
    let f ← (interior p.height).foldlM (fun f i =>
      (interior p.width).foldlM (fun f j => diffuseCell a field_prev f i j) f) f
    setBoundary f) f

/-- The body of `advect` at interior cell `(i, j)`: semi-Lagrangian backward
trace along `(u, v)`, clamped bilinear resample of `field_prev`.  Python's
`int(...)` is truncation toward zero, which on the clamped (hence positive)
coordinates equals the floor. -/
def advectCell (p : Params) (dt0 : ℚ) (field_prev u v f : Field) (i j : ℕ) :
    Option Field := do
  let uij ← fget u i j
  let vij ← fget v i j
  let x := (j : ℚ) - dt0 * uij
  let y := (i : ℚ) - dt0 * vij
  let x := max (1 / 2) (min ((p.width : ℚ) - 3 / 2) x)
  let y := max (1 / 2) (min ((p.height : ℚ) - 3 / 2) y)
  let i0 := (⌊y⌋).toNat
  let j0 := (⌊x⌋).toNat
  let i1 := i0 + 1
  let j1 := j0 + 1
  let s1 := x - (j0 : ℚ)
  let s0 := 1 - s1
  let t1 := y - (i0 : ℚ)
  let t0 := 1 - t1
  let q00 ← fget field_prev i0 j0
  let q01 ← fget field_prev i0 j1
  let q10 ← fget field_prev i1 j0
  let q11 ← fget field_prev i1 j1
  fset f i j (t0 * (s0 * q00 + s1 * q01) + t1 * (s0 * q10 + s1 * q11))

/-- `advect(field, field_prev, u, v)`: one pass over the interior writing the
resampled values into `field`, then a single `_set_boundary`. -/
def advect (p : Params) (field field_prev u v : Field) : Option Field := do
  let dt0 := p.dt * (Nat.sqrt (p.width * p.height) : ℚ)
  let f ← (interior p.height).foldlM (fun f i =>
    (interior p.width).foldlM (fun f j =>
      advectCell p dt0 field_prev u v f i j) f) field
  setBoundary f

/-- An all-zero `h × w` field, `np.zeros((h, w))`. -/
def zeros (h w : ℕ) : Field := List.replicate h (List.replicate w 0)

/-- The divergence computation of `project`: over a fresh zero field,
`div[i,j] = -0.5*(u[i,j+1] - u[i,j-1] + v[i+1,j] - v[i-1,j]) / sqrt(w*h)`
for interior cells. -/
def divergence (p : Params) (u v : Field) : Option Field :=
  (interior p.height).foldlM (fun dv i =>
    (interior p.width).foldlM (fun dv j => do
      let a ← fget u i (j + 1)
      let b ← fget u i (j - 1)
      let c ← fget v (i + 1) j
      let d ← fget v (i - 1) j
      fset dv i j ((-(1 / 2)) * (a - b + (c - d)) /
        (Nat.sqrt (p.width * p.height) : ℚ))) dv)
    (zeros p.height p.width)

/-- One Gauss–Seidel sweep of the Poisson solve in `project`:
`p[i,j] = (div[i,j] + p[i+1,j] + p[i-1,j] + p[i,j+1] + p[i,j-1]) / 4`. -/
def pSweep (p : Params) (div pf : Field) : Option Field :=
  (interior p.height).foldlM (fun pf i =>
    (interior p.width).foldlM (fun pf j => do
      let dij ← fget div i j
      let a ← fget pf (i + 1) j
      let b ← fget pf (i - 1) j
      let c ← fget pf i (j + 1)
      let d ← fget pf i (j - 1)
      fset pf i j ((dij + a + b + c + d) / 4)) pf) pf

/-- The pressure-gradient subtraction of `project`:
`u[i,j] -= 0.5*(p[i,j+1] - p[i,j-1]) * width` and
`v[i,j] -= 0.5*(p[i+1,j] - p[i-1,j]) * height` over the interior. -/
def gradSub (p : Params) (pf u v : Field) : Option (Field × Field) :=
  (interior p.height).foldlM (fun uv i =>
    (interior p.width).foldlM (fun uv j => do
      let a ← fget pf i (j + 1)
      let b ← fget pf i (j - 1)
      let uij ← fget uv.1 i j
      let u ← fset uv.1 i j (uij - (1 / 2) * (a - b) * (p.width : ℚ))
      let c ← fget pf (i + 1) j
      let d ← fget pf (i - 1) j
      let vij ← fget uv.2 i j
      let v ← fset uv.2 i j (vij - (1 / 2) * (c - d) * (p.height : ℚ))
      pure (u, v)) uv) (u, v)

/-- `project()`: divergence, boundary conditions, 20 Gauss–Seidel sweeps for the
pressure with boundary conditions after each, gradient subtraction, and final
boundary conditions on both velocity components. -/
def project (p : Params) (u v : Field) : Option (Field × Field) := do
  let dv ← divergence p u v
  let dv ← setBoundary dv
  let pf ← setBoundary (zeros p.height p.width)
  let pf ← (List.range 20).foldlM (fun pf _ => do
    let pf ← pSweep p dv pf
    setBoundary pf) pf
  let (u, v) ← gradSub p pf u v
  let u ← setBoundary u
  let v ← setBoundary v
  pure (u, v)

/-- The simulator state: parameters plus the five owned fields. -/
structure Sim where
  params : Params
  u : Field
  v : Field
  u_prev : Field
  v_prev : Field
  density : Field
deriving DecidableEq, Repr

/-- `NavierStokesSimulator(width, height, viscosity, dt)`: all five fields are
allocated as `np.zeros((height, width))`; no argument validation is performed. -/
def init (width height : ℕ) (viscosity dt : ℚ) : Sim :=
  { params := ⟨width, height, viscosity, dt⟩
    u := zeros height width
    v := zeros height width
    u_prev := zeros height width
    v_prev := zeros height width
    density := zeros height width }

/-- `add_density(x, y, amount)`: adds at `density[y, x]` when
`0 <= x < width and 0 <= y < height`, else silently does nothing. -/
def addDensity (s : Sim) (x y : ℤ) (amount : ℚ) : Option Sim :=
  if 0 ≤ x ∧ x < (s.params.width : ℤ) ∧ 0 ≤ y ∧ y < (s.params.height : ℤ) then do
    let dv ← fget s.density y.toNat x.toNat
    let d ← fset s.density y.toNat x.toNat (dv + amount)
    pure { s with density := d }
  else pure s

/-- `add_velocity(x, y, amount_x, amount_y)`: adds at `u[y, x]` and `v[y, x]`
when in range, else silently does nothing. -/
def addVelocity (s : Sim) (x y : ℤ) (ax ay : ℚ) : Option Sim :=
  if 0 ≤ x ∧ x < (s.params.width : ℤ) ∧ 0 ≤ y ∧ y < (s.params.height : ℤ) then do
    let uv ← fget s.u y.toNat x.toNat
    let u ← fset s.u y.toNat x.toNat (uv + ax)
    let vv ← fget s.v y.toNat x.toNat
    let v ← fset s.v y.toNat x.toNat (vv + ay)
    pure { s with u := u, v := v }
  else pure s

/-- `step()`: the fixed stage sequence of the source, in source order. -/
def step (s : Sim) : Option Sim := do
  let up ← copyInto s.u_prev s.u
  let vp ← copyInto s.v_prev s.v
  let s : Sim := { s with u_prev := up, v_prev := vp }
  let u ← diffuse s.params s.u s.u_prev s.params.viscosity
  let s : Sim := { s with u := u }
  let v ← diffuse s.params s.v s.v_prev s.params.viscosity
  let s : Sim := { s with v := v }
  let uv ← project s.params s.u s.v
  let s : Sim := { s with u := uv.1, v := uv.2 }
  let up2 ← copyInto s.u_prev s.u
  let vp2 ← copyInto s.v_prev s.v
  let s : Sim := { s with u_prev := up2, v_prev := vp2 }
  let u2 ← advect s.params s.u s.u_prev s.u_prev s.v_prev
  let s : Sim := { s with u := u2 }
  let v2 ← advect s.params s.v s.v_prev s.u_prev s.v_prev
  let s : Sim := { s with v := v2 }
  let uv2 ← project s.params s.u s.v
  let s : Sim := { s with u := uv2.1, v := uv2.2 }
  let dp := s.density
  let d ← diffuse s.params s.density dp (1 / 100)
  let s : Sim := { s with density := d }
  let dp2 := s.density
  let d2 ← advect s.params s.density dp2 s.u s.v
  pure { s with density := d2 }

/-- An external driver call, for the determinism property. -/
inductive Call where
  | addDensity (x y : ℤ) (amount : ℚ)
  | addVelocity (x y : ℤ) (ax ay : ℚ)
  | step
deriving DecidableEq, Repr

/-- Execute one driver call. -/
def exec (s : Sim) : Call → Option Sim
  | .addDensity x y a => addDensity s x y a
  | .addVelocity x y ax ay => addVelocity s x y ax ay
  | .step => step s

/-- Execute a sequence of driver calls. -/
def runCalls (s : Sim) (cs : List Call) : Option Sim := cs.foldlM exec s

/-- Iterated `step`, for properties about "any number of steps". -/
def stepN (n : ℕ) (s : Sim) : Option Sim :=
  (List.replicate n Call.step).foldlM exec s

/-- Sum of squares of a field over the interior cells: the squared L2 norm of
the interior part, used by the projection-convergence property. -/
def interiorL2Sq (p : Params) (f : Field) : ℚ :=
  ((interior p.height).map (fun i =>
    ((interior p.width).map (fun j => getE f i j ^ 2)).sum)).sum

/-- The interior-divergence squared L2 norm of a simulator's velocity field. -/
def divL2Sq (s : Sim) : Option ℚ :=
  (divergence s.params s.u s.v).map (interiorL2Sq s.params)

/-- Well-formedness of a simulator: all five fields are rectangular with the
constructed dimensions. -/
def WF (s : Sim) : Prop :=
  WFfield s.u s.params.height s.params.width ∧
  WFfield s.v s.params.height s.params.width ∧
  WFfield s.u_prev s.params.height s.params.width ∧
  WFfield s.v_prev s.params.height s.params.width ∧
  WFfield s.density s.params.height s.params.width

instance (s : Sim) : Decidable (WF s) := by
  unfold WF; infer_instance

/-! ### Basic facts about fields and checked indexing -/

lemma WFfield_iff {f : Field} {h w : ℕ} :
    WFfield f h w ↔ f.length = h ∧ ∀ r ∈ f, r.length = w := by
  unfold WFfield shape
  rw [List.eq_replicate_iff, List.length_map]
  constructor
  · rintro ⟨hl, hr⟩
    exact ⟨hl, fun r hrf => hr r.length (List.mem_map_of_mem _ hrf)⟩
  · rintro ⟨hl, hr⟩
    refine ⟨hl, fun b hb => ?_⟩
    obtain ⟨r, hrf, rfl⟩ := List.mem_map.mp hb
    exact hr r hrf

lemma WFfield.row {f : Field} {h w : ℕ} (hf : WFfield f h w) {i : ℕ} (hi : i < h) :
    ∃ r, f[i]? = some r ∧ r.length = w := by
  obtain ⟨hl, hr⟩ := WFfield_iff.mp hf
  have hi2 : i < f.length := hl ▸ hi
  exact ⟨f[i], List.getElem?_eq_getElem hi2, hr _ (List.getElem_mem hi2)⟩

lemma WFfield_zeros (h w : ℕ) : WFfield (zeros h w) h w := by
  unfold WFfield shape zeros
  rw [List.map_replicate, List.length_replicate]

lemma getE_out_of_range {f : Field} {h w : ℕ} (hf : WFfield f h w) {i j : ℕ}
    (hij : ¬(i < h ∧ j < w)) : getE f i j = 0 := by
  obtain ⟨hl, hr⟩ := WFfield_iff.mp hf
  by_cases hi : i < h
  · have hj : ¬ j < w := fun hj => hij ⟨hi, hj⟩
    obtain ⟨r, hri, hrw⟩ := WFfield.row hf hi
    have hjr : r.length ≤ j := by omega
    simp [getE, hri, List.getElem?_eq_none hjr]
  · have hif : f.length ≤ i := by omega
    simp [getE, List.getElem?_eq_none hif]

lemma fget_some {f : Field} {h w : ℕ} (hf : WFfield f h w) {i j : ℕ}
    (hi : i < h) (hj : j < w) : fget f i j = some (getE f i j) := by
  obtain ⟨r, hri, hrw⟩ := WFfield.row hf hi
  have hjr : j < r.length := by omega
  simp [fget, getE, hri, List.getElem?_eq_getElem hjr]

lemma fset_spec {f : Field} {h w : ℕ} (hf : WFfield f h w) {i j : ℕ} (x : ℚ)
    (hi : i < h) (hj : j < w) :
    ∃ g, fset f i j x = some g ∧ WFfield g h w ∧
      ∀ i2 j2, getE g i2 j2 = if i2 = i ∧ j2 = j then x else getE f i2 j2 := by
  obtain ⟨r, hri, hrw⟩ := WFfield.row hf hi
  obtain ⟨hl, hrow⟩ := WFfield_iff.mp hf
  have hif : i < f.length := by omega
  have hjr : j < r.length := by omega
  refine ⟨f.set i (r.set j x), ?_, ?_, ?_⟩
  · unfold fset
    rw [hri]
    simp [hjr]
  · rw [WFfield_iff]
    refine ⟨by simp [hl], fun r2 hr2 => ?_⟩
    rcases List.mem_or_eq_of_mem_set hr2 with hmem | rfl
    · exact hrow _ hmem
    · simp [hrw]
  · intro i2 j2
    by_cases hii : i2 = i
    · subst hii
      by_cases hjj : j2 = j
      · subst hjj
        rw [if_pos ⟨rfl, rfl⟩]
        simp [getE, List.getElem?_set, hif, hjr]
      · rw [if_neg (by tauto)]
        simp only [getE, List.getElem?_set, if_pos rfl, if_pos hif, Option.getD_some,
          hri, if_true, eq_self_iff_true]
        rw [if_neg (Ne.symm hjj)]
    · rw [if_neg (by tauto)]
      simp only [getE, List.getElem?_set, if_neg (Ne.symm hii)]

lemma zeroRow_spec {f : Field} {h w : ℕ} (hf : WFfield f h w) {i : ℕ} (hi : i < h) :
    ∃ g, zeroRow f i = some g ∧ WFfield g h w ∧
      ∀ i2 j2, getE g i2 j2 = if i2 = i then 0 else getE f i2 j2 := by
  obtain ⟨r, hri, hrw⟩ := WFfield.row hf hi
  obtain ⟨hl, hrow⟩ := WFfield_iff.mp hf
  refine ⟨f.set i (List.replicate r.length 0), ?_, ?_, ?_⟩
  · unfold zeroRow
    rw [hri]
  · rw [WFfield_iff]
    refine ⟨by simp [hl], fun r2 hr2 => ?_⟩
    rcases List.mem_or_eq_of_mem_set hr2 with hmem | rfl
    · exact hrow _ hmem
    · simp [hrw]
  · intro i2 j2
    by_cases hii : i2 = i
    · subst hii
      rw [if_pos rfl]
      have hif2 : i2 < f.length := by omega
      rcases Nat.lt_or_ge j2 r.length with hc | hc
      · simp [getE, List.getElem?_set, hif2, List.getElem?_replicate, hc]
      · simp [getE, List.getElem?_set, hif2, List.getElem?_replicate,
          Nat.not_lt.mpr hc]
    · rw [if_neg hii]
      simp only [getE, List.getElem?_set, if_neg (Ne.symm hii)]

lemma zeroCol_spec {f : Field} {h w : ℕ} (hf : WFfield f h w) {j : ℕ} (hj : j < w) :
    ∃ g, zeroCol f j = some g ∧ WFfield g h w ∧
      ∀ i2 j2, getE g i2 j2 = if j2 = j then 0 else getE f i2 j2 := by
  obtain ⟨hl, hrow⟩ := WFfield_iff.mp hf
  have hall : ∀ r ∈ f, j < r.length := fun r hr => by rw [hrow r hr]; exact hj
  refine ⟨f.map fun r => r.set j 0, ?_, ?_, ?_⟩
  · unfold zeroCol
    rw [if_pos hall]
  · rw [WFfield_iff]
    refine ⟨by simp [hl], fun r2 hr2 => ?_⟩
    obtain ⟨r, hrf, rfl⟩ := List.mem_map.mp hr2
    simp [hrow r hrf]
  · intro i2 j2
    simp only [getE, List.getElem?_map]
    cases hfi : f[i2]? with
    | none =>
        simp only [Option.map_none, Option.getD_none, List.getElem?_nil,
          Option.getD_none]
        split <;> rfl
    | some r =>
        have hrf : r ∈ f := by
          obtain ⟨hlt, rfl⟩ := List.getElem?_eq_some.mp hfi
          exact List.getElem_mem hlt
        have hjlt : j < r.length := hall r hrf
        simp only [Option.map_some', Option.getD_some, List.getElem?_set]
        by_cases hjj : j2 = j
        · subst hjj
          simp [hjlt]
        · rw [if_neg (Ne.symm hjj), if_neg hjj]

lemma setCorner_spec {f : Field} {h w : ℕ} (hf : WFfield f h w)
    {ci cj ai aj bi bj : ℕ} (hci : ci < h) (hcj : cj < w) (hai : ai < h)
    (haj : aj < w) (hbi : bi < h) (hbj : bj < w) :
    ∃ g, setCorner f ci cj ai aj bi bj = some g ∧ WFfield g h w ∧
      ∀ i2 j2, getE g i2 j2 = if i2 = ci ∧ j2 = cj then
        (1 / 2 : ℚ) * (getE f ai aj + getE f bi bj) else getE f i2 j2 := by
  obtain ⟨g, hg, hgWF, hgE⟩ :=
    fset_spec hf ((1 / 2 : ℚ) * (getE f ai aj + getE f bi bj)) hci hcj
  refine ⟨g, ?_, hgWF, hgE⟩
  unfold setCorner
  rw [fget_some hf hai haj, fget_some hf hbi hbj]
  simpa using hg

/-- The boundary condition in full: after a successful `setBoundary` on an
`h × w` field with `h, w ≥ 2`, every boundary cell (corners included) is
exactly `0`, and interior cells are untouched. -/
lemma setBoundary_spec {f : Field} {h w : ℕ} (hf : WFfield f h w)
    (hh : 2 ≤ h) (hw : 2 ≤ w) :
    ∃ g, setBoundary f = some g ∧ WFfield g h w ∧
      ∀ i j, getE g i j =
        if i = 0 ∨ i = h - 1 ∨ j = 0 ∨ j = w - 1 then 0 else getE f i j := by
  obtain ⟨hl, hrow⟩ := WFfield_iff.mp hf
  have hhead : (f.headD []).length = w := by
    cases f with
    | nil => simp at hl; omega
    | cons r t => simpa using hrow r (by simp)
  obtain ⟨g1, h1, wf1, e1⟩ := zeroRow_spec hf (show 0 < h by omega)
  obtain ⟨g2, h2, wf2, e2⟩ := zeroRow_spec wf1 (show h - 1 < h by omega)
  obtain ⟨g3, h3, wf3, e3⟩ := zeroCol_spec wf2 (show 0 < w by omega)
  obtain ⟨g4, h4, wf4, e4⟩ := zeroCol_spec wf3 (show w - 1 < w by omega)
  have e4' : ∀ i j, getE g4 i j =
      if i = 0 ∨ i = h - 1 ∨ j = 0 ∨ j = w - 1 then 0 else getE f i j := by
    intro i j
    rw [e4, e3, e2, e1]
    by_cases hi0 : i = 0 <;> by_cases hi1 : i = h - 1 <;>
      by_cases hj0 : j = 0 <;> by_cases hj1 : j = w - 1 <;>
      simp [hi0, hi1, hj0, hj1]
  obtain ⟨g5, h5, wf5, e5⟩ := setCorner_spec wf4 (show 0 < h by omega)
    (show 0 < w by omega) (show 1 < h by omega) (show 0 < w by omega)
    (show 0 < h by omega) (show 1 < w by omega)
  have e5' : ∀ i j, getE g5 i j =
      if i = 0 ∨ i = h - 1 ∨ j = 0 ∨ j = w - 1 then 0 else getE f i j := by
    intro i j
    rw [e5]
    by_cases hc : i = 0 ∧ j = 0
    · rw [if_pos hc, e4' 1 0, e4' 0 1]
      simp [hc.1, hc.2]
    · rw [if_neg hc, e4']
  obtain ⟨g6, h6, wf6, e6⟩ := setCorner_spec wf5 (show 0 < h by omega)
    (show w - 1 < w by omega) (show 1 < h by omega) (show w - 1 < w by omega)
    (show 0 < h by omega) (show w - 2 < w by omega)
  have e6' : ∀ i j, getE g6 i j =
      if i = 0 ∨ i = h - 1 ∨ j = 0 ∨ j = w - 1 then 0 else getE f i j := by
    intro i j
    rw [e6]
    by_cases hc : i = 0 ∧ j = w - 1
    · rw [if_pos hc, e5' 1 (w - 1), e5' 0 (w - 2)]
      simp [hc.1, hc.2]
    · rw [if_neg hc, e5']
  obtain ⟨g7, h7, wf7, e7⟩ := setCorner_spec wf6 (show h - 1 < h by omega)
    (show 0 < w by omega) (show h - 2 < h by omega) (show 0 < w by omega)
    (show h - 1 < h by omega) (show 1 < w by omega)
  have e7' : ∀ i j, getE g7 i j =
      if i = 0 ∨ i = h - 1 ∨ j = 0 ∨ j = w - 1 then 0 else getE f i j := by
    intro i j
    rw [e7]
    by_cases hc : i = h - 1 ∧ j = 0
    · rw [if_pos hc, e6' (h - 2) 0, e6' (h - 1) 1]
      simp [hc.1, hc.2]
    · rw [if_neg hc, e6']
  obtain ⟨g8, h8, wf8, e8⟩ := setCorner_spec wf7 (show h - 1 < h by omega)
    (show w - 1 < w by omega) (show h - 2 < h by omega) (show w - 1 < w by omega)
    (show h - 1 < h by omega) (show w - 2 < w by omega)
  have e8' : ∀ i j, getE g8 i j =
      if i = 0 ∨ i = h - 1 ∨ j = 0 ∨ j = w - 1 then 0 else getE f i j := by
    intro i j
    rw [e8]
    by_cases hc : i = h - 1 ∧ j = w - 1
    · rw [if_pos hc, e7' (h - 2) (w - 1), e7' (h - 1) (w - 2)]
      simp [hc.1, hc.2]
    · rw [if_neg hc, e7']
  refine ⟨g8, ?_, wf8, e8'⟩
  unfold setBoundary
  simp only [hl, hhead, bind, pure, Option.some_bind, h1, h2, h3, h4, h5, h6, h7, h8]

/-! ### Monadic folds: success and invariant preservation -/

lemma foldlM_some_of {α β : Type} (P : β → Prop) (l : List α)
    (g : β → α → Option β)
    (hg : ∀ b a, P b → a ∈ l → ∃ b2, g b a = some b2 ∧ P b2) :
    ∀ b, P b → ∃ b2, l.foldlM g b = some b2 ∧ P b2 := by
  induction l with
  | nil => intro b hb; exact ⟨b, rfl, hb⟩
  | cons a t ih =>
      intro b hb
      obtain ⟨b1, hb1, hP1⟩ := hg b a hb (by simp)
      obtain ⟨b2, hb2, hP2⟩ :=
        ih (fun b a hb ha => hg b a hb (by simp [ha])) b1 hP1
      refine ⟨b2, ?_, hP2⟩
      rw [List.foldlM_cons, hb1]
      simpa only [bind, Option.some_bind] using hb2

lemma nested_some {β : Type} (P : β → Prop) (ri rj : List ℕ)
    (g : β → ℕ → ℕ → Option β)
    (hg : ∀ b i j, P b → i ∈ ri → j ∈ rj → ∃ b2, g b i j = some b2 ∧ P b2) :
    ∀ b, P b → ∃ b2,
      ri.foldlM (fun b i => rj.foldlM (fun b j => g b i j) b) b = some b2 ∧ P b2 :=
  foldlM_some_of P ri _ (fun b i hb hi =>
    foldlM_some_of P rj _ (fun b2 j hb2 hj => hg b2 i j hb2 hi hj) b hb)

lemma mem_interior {n i : ℕ} (hi : i ∈ interior n) : 1 ≤ i ∧ i + 1 < n := by
  have := List.mem_range'_1.mp hi
  unfold interior at this
  omega

/-! ### Totality of the operators on well-formed fields -/

lemma copyInto_some {dst src : Field} {h w : ℕ} (hdst : WFfield dst h w)
    (hsrc : WFfield src h w) : copyInto dst src = some src := by
  unfold copyInto
  rw [if_pos (hdst.trans hsrc.symm)]

lemma diffuseCell_some {fp f : Field} {h w : ℕ} (a : ℚ)
    (hfp : WFfield fp h w) (hf : WFfield f h w) {i j : ℕ}
    (hi : 1 ≤ i ∧ i + 1 < h) (hj : 1 ≤ j ∧ j + 1 < w) :
    ∃ g, diffuseCell a fp f i j = some g ∧ WFfield g h w := by
  obtain ⟨g, hg, hgWF, _⟩ := fset_spec hf
    ((getE fp i j + a * (getE f (i + 1) j + getE f (i - 1) j +
      getE f i (j + 1) + getE f i (j - 1))) / (1 + 4 * a))
    (show i < h by omega) (show j < w by omega)
  refine ⟨g, ?_, hgWF⟩
  unfold diffuseCell
  have r0 : fget fp i j = some (getE fp i j) :=
    fget_some hfp (by omega) (by omega)
  have r1 : fget f (i + 1) j = some (getE f (i + 1) j) :=
    fget_some hf (by omega) (by omega)
  have r2 : fget f (i - 1) j = some (getE f (i - 1) j) :=
    fget_some hf (by omega) (by omega)
  have r3 : fget f i (j + 1) = some (getE f i (j + 1)) :=
    fget_some hf (by omega) (by omega)
  have r4 : fget f i (j - 1) = some (getE f i (j - 1)) :=
    fget_some hf (by omega) (by omega)
  rw [r0, r1, r2, r3, r4]
  simpa only [bind, pure, Option.some_bind] using hg

lemma diffuse_some {p : Params} {field fp : Field} (rate : ℚ)
    (hf : WFfield field p.height p.width) (hfp : WFfield fp p.height p.width)
    (hh : 2 ≤ p.height) (hw : 2 ≤ p.width) :
    ∃ g, diffuse p field fp rate = some g ∧ WFfield g p.height p.width := by
  unfold diffuse
  rw [copyInto_some hf hfp]
  simp only [bind, Option.some_bind]
  refine foldlM_some_of (WFfield · p.height p.width) _ _ ?_ fp hfp
  intro f k hfk _
  obtain ⟨f2, hf2, hP2⟩ := nested_some (WFfield · p.height p.width)
    (interior p.height) (interior p.width) _
    (fun b i j hb hi hj =>
      diffuseCell_some _ hfp hb (mem_interior hi) (mem_interior hj)) f hfk
  obtain ⟨g, hg, hgP, _⟩ := setBoundary_spec hP2 hh hw
  refine ⟨g, ?_, hgP⟩
  rw [hf2]
  simpa only [bind, Option.some_bind] using hg

lemma clamp_floor_le (n : ℕ) (hn : 2 ≤ n) (x : ℚ) :
    (⌊max (1 / 2) (min ((n : ℚ) - 3 / 2) x)⌋).toNat ≤ n - 2 := by
  have hn2 : (2 : ℚ) ≤ (n : ℚ) := by exact_mod_cast hn
  have h1 : max (1 / 2) (min ((n : ℚ) - 3 / 2) x) ≤ (n : ℚ) - 3 / 2 := by
    apply max_le
    · linarith
    · exact min_le_left _ _
  have hf2 : ⌊((n : ℚ) - 3 / 2)⌋ = (n : ℤ) - 2 := by
    rw [Int.floor_eq_iff]
    constructor
    · push_cast
      linarith
    · push_cast
      linarith
  have h2 : ⌊max (1 / 2) (min ((n : ℚ) - 3 / 2) x)⌋ ≤ ((n : ℤ) - 2) :=
    hf2 ▸ Int.floor_le_floor h1
  omega

lemma advectCell_some {p : Params} {fp u v f : Field} (dt0 : ℚ)
    (hfp : WFfield fp p.height p.width) (hu : WFfield u p.height p.width)
    (hv : WFfield v p.height p.width) (hf : WFfield f p.height p.width)
    (hh : 2 ≤ p.height) (hw : 2 ≤ p.width) {i j : ℕ}
    (hi : 1 ≤ i ∧ i + 1 < p.height) (hj : 1 ≤ j ∧ j + 1 < p.width) :
    ∃ g, advectCell p dt0 fp u v f i j = some g ∧ WFfield g p.height p.width := by
  set x := max (1 / 2) (min ((p.width : ℚ) - 3 / 2) ((j : ℚ) - dt0 * getE u i j))
    with hxdef
  set y := max (1 / 2) (min ((p.height : ℚ) - 3 / 2) ((i : ℚ) - dt0 * getE v i j))
    with hydef
  have hxb : (⌊x⌋).toNat ≤ p.width - 2 := clamp_floor_le _ hw _
  have hyb : (⌊y⌋).toNat ≤ p.height - 2 := clamp_floor_le _ hh _
  obtain ⟨g, hg, hgWF, _⟩ := fset_spec hf
    ((1 - (y - ((⌊y⌋).toNat : ℚ))) *
        ((1 - (x - ((⌊x⌋).toNat : ℚ))) * getE fp (⌊y⌋).toNat (⌊x⌋).toNat +
          (x - ((⌊x⌋).toNat : ℚ)) * getE fp (⌊y⌋).toNat ((⌊x⌋).toNat + 1)) +
      (y - ((⌊y⌋).toNat : ℚ)) *
        ((1 - (x - ((⌊x⌋).toNat : ℚ))) * getE fp ((⌊y⌋).toNat + 1) (⌊x⌋).toNat +
          (x - ((⌊x⌋).toNat : ℚ)) * getE fp ((⌊y⌋).toNat + 1) ((⌊x⌋).toNat + 1)))
    (show i < p.height by omega) (show j < p.width by omega)
  refine ⟨g, ?_, hgWF⟩
  unfold advectCell
  have ru : fget u i j = some (getE u i j) := fget_some hu (by omega) (by omega)
  have rv : fget v i j = some (getE v i j) := fget_some hv (by omega) (by omega)
  have r00 : fget fp (⌊y⌋).toNat (⌊x⌋).toNat =
      some (getE fp (⌊y⌋).toNat (⌊x⌋).toNat) :=
    fget_some hfp (by omega) (by omega)
  have r01 : fget fp (⌊y⌋).toNat ((⌊x⌋).toNat + 1) =
      some (getE fp (⌊y⌋).toNat ((⌊x⌋).toNat + 1)) :=
    fget_some hfp (by omega) (by omega)
  have r10 : fget fp ((⌊y⌋).toNat + 1) (⌊x⌋).toNat =
      some (getE fp ((⌊y⌋).toNat + 1) (⌊x⌋).toNat) :=
    fget_some hfp (by omega) (by omega)
  have r11 : fget fp ((⌊y⌋).toNat + 1) ((⌊x⌋).toNat + 1) =
      some (getE fp ((⌊y⌋).toNat + 1) ((⌊x⌋).toNat + 1)) :=
    fget_some hfp (by omega) (by omega)
  rw [ru, rv]
  simp only [bind, pure, Option.some_bind, ← hxdef, ← hydef]
  rw [r00, r01, r10, r11]
  simpa only [bind, pure, Option.some_bind] using hg

lemma advect_some {p : Params} {field fp u v : Field}
    (hf : WFfield field p.height p.width) (hfp : WFfield fp p.height p.width)
    (hu : WFfield u p.height p.width) (hv : WFfield v p.height p.width)
    (hh : 2 ≤ p.height) (hw : 2 ≤ p.width) :
    ∃ g, advect p field fp u v = some g ∧ WFfield g p.height p.width := by
  obtain ⟨f2, hf2, hP2⟩ := nested_some (WFfield · p.height p.width)
    (interior p.height) (interior p.width)
    (fun f i j => advectCell p (p.dt * ((Nat.sqrt (p.width * p.height) : ℕ) : ℚ))
      fp u v f i j)
    (fun b i j hb hi hj =>
      advectCell_some _ hfp hu hv hb hh hw (mem_interior hi) (mem_interior hj))
    field hf
  obtain ⟨g, hg, hgP, _⟩ := setBoundary_spec hP2 hh hw
  refine ⟨g, ?_, hgP⟩
  simp only [advect]
  rw [hf2]
  simpa only [bind, Option.some_bind] using hg

lemma divergence_some {p : Params} {u v : Field}
    (hu : WFfield u p.height p.width) (hv : WFfield v p.height p.width)
    (hh : 2 ≤ p.height) (hw : 2 ≤ p.width) :
    ∃ g, divergence p u v = some g ∧ WFfield g p.height p.width := by
  unfold divergence
  refine nested_some (WFfield · p.height p.width) _ _ _ ?_ _
    (WFfield_zeros p.height p.width)
  intro b i j hb hi hj
  obtain ⟨hi1, hi2⟩ := mem_interior hi
  obtain ⟨hj1, hj2⟩ := mem_interior hj
  obtain ⟨g, hg, hgWF, _⟩ := fset_spec hb
    ((-(1 / 2)) * (getE u i (j + 1) - getE u i (j - 1) +
      (getE v (i + 1) j - getE v (i - 1) j)) /
      ((Nat.sqrt (p.width * p.height) : ℕ) : ℚ))
    (show i < p.height by omega) (show j < p.width by omega)
  refine ⟨g, ?_, hgWF⟩
  have r1 : fget u i (j + 1) = some (getE u i (j + 1)) :=
    fget_some hu (by omega) (by omega)
  have r2 : fget u i (j - 1) = some (getE u i (j - 1)) :=
    fget_some hu (by omega) (by omega)
  have r3 : fget v (i + 1) j = some (getE v (i + 1) j) :=
    fget_some hv (by omega) (by omega)
  have r4 : fget v (i - 1) j = some (getE v (i - 1) j) :=
    fget_some hv (by omega) (by omega)
  rw [r1, r2, r3, r4]
  simpa only [bind, pure, Option.some_bind] using hg

lemma pSweep_some {p : Params} {div pf : Field}
    (hdv : WFfield div p.height p.width) (hpf : WFfield pf p.height p.width)
    (hh : 2 ≤ p.height) (hw : 2 ≤ p.width) :
    ∃ g, pSweep p div pf = some g ∧ WFfield g p.height p.width := by
  unfold pSweep
  refine nested_some (WFfield · p.height p.width) _ _ _ ?_ _ hpf
  intro b i j hb hi hj
  obtain ⟨hi1, hi2⟩ := mem_interior hi
  obtain ⟨hj1, hj2⟩ := mem_interior hj
  obtain ⟨g, hg, hgWF, _⟩ := fset_spec hb
    ((getE div i j + getE b (i + 1) j + getE b (i - 1) j +
      getE b i (j + 1) + getE b i (j - 1)) / 4)
    (show i < p.height by omega) (show j < p.width by omega)
  refine ⟨g, ?_, hgWF⟩
  have r0 : fget div i j = some (getE div i j) :=
    fget_some hdv (by omega) (by omega)
  have r1 : fget b (i + 1) j = some (getE b (i + 1) j) :=
    fget_some hb (by omega) (by omega)
  have r2 : fget b (i - 1) j = some (getE b (i - 1) j) :=
    fget_some hb (by omega) (by omega)
  have r3 : fget b i (j + 1) = some (getE b i (j + 1)) :=
    fget_some hb (by omega) (by omega)
  have r4 : fget b i (j - 1) = some (getE b i (j - 1)) :=
    fget_some hb (by omega) (by omega)
  rw [r0, r1, r2, r3, r4]
  simpa only [bind, pure, Option.some_bind] using hg

lemma gradSub_some {p : Params} {pf u v : Field}
    (hpf : WFfield pf p.height p.width) (hu : WFfield u p.height p.width)
    (hv : WFfield v p.height p.width)
    (hh : 2 ≤ p.height) (hw : 2 ≤ p.width) :
    ∃ u2 v2, gradSub p pf u v = some (u2, v2) ∧
      WFfield u2 p.height p.width ∧ WFfield v2 p.height p.width := by
  have hcell : ∀ (b : Field × Field) (i j : ℕ),
      (WFfield b.1 p.height p.width ∧ WFfield b.2 p.height p.width) →
      i ∈ interior p.height → j ∈ interior p.width →
      ∃ b2, (do
        let a ← fget pf i (j + 1)
        let bb ← fget pf i (j - 1)
        let uij ← fget b.1 i j
        let u ← fset b.1 i j (uij - (1 / 2) * (a - bb) * (p.width : ℚ))
        let c ← fget pf (i + 1) j
        let d ← fget pf (i - 1) j
        let vij ← fget b.2 i j
        let v ← fset b.2 i j (vij - (1 / 2) * (c - d) * (p.height : ℚ))
        pure ((u, v) : Field × Field)) = some b2 ∧
        WFfield b2.1 p.height p.width ∧ WFfield b2.2 p.height p.width := by
    intro b i j hb hi hj
    obtain ⟨hb1, hb2⟩ := hb
    obtain ⟨hi1, hi2⟩ := mem_interior hi
    obtain ⟨hj1, hj2⟩ := mem_interior hj
    obtain ⟨gu, hgu, hguWF, _⟩ := fset_spec hb1
      (getE b.1 i j - (1 / 2) * (getE pf i (j + 1) - getE pf i (j - 1)) *
        (p.width : ℚ))
      (show i < p.height by omega) (show j < p.width by omega)
    obtain ⟨gv, hgv, hgvWF, _⟩ := fset_spec hb2
      (getE b.2 i j - (1 / 2) * (getE pf (i + 1) j - getE pf (i - 1) j) *
        (p.height : ℚ))
      (show i < p.height by omega) (show j < p.width by omega)
    refine ⟨(gu, gv), ?_, hguWF, hgvWF⟩
    have r1 : fget pf i (j + 1) = some (getE pf i (j + 1)) :=
      fget_some hpf (by omega) (by omega)
    have r2 : fget pf i (j - 1) = some (getE pf i (j - 1)) :=
      fget_some hpf (by omega) (by omega)
    have r3 : fget pf (i + 1) j = some (getE pf (i + 1) j) :=
      fget_some hpf (by omega) (by omega)
    have r4 : fget pf (i - 1) j = some (getE pf (i - 1) j) :=
      fget_some hpf (by omega) (by omega)
    have ru : fget b.1 i j = some (getE b.1 i j) :=
      fget_some hb1 (by omega) (by omega)
    have rv : fget b.2 i j = some (getE b.2 i j) :=
      fget_some hb2 (by omega) (by omega)
    simp only [bind, pure, Option.some_bind, r1, r2, ru]
    rw [hgu]
    simp only [bind, pure, Option.some_bind, r3, r4, rv]
    rw [hgv]
    simp only [bind, pure, Option.some_bind]
  obtain ⟨⟨u2, v2⟩, huv, h1, h2⟩ := nested_some
    (fun uv : Field × Field =>
      WFfield uv.1 p.height p.width ∧ WFfield uv.2 p.height p.width)
    (interior p.height) (interior p.width) _ hcell (u, v) ⟨hu, hv⟩
  exact ⟨u2, v2, huv, h1, h2⟩

lemma project_some {p : Params} {u v : Field}
    (hu : WFfield u p.height p.width) (hv : WFfield v p.height p.width)
    (hh : 2 ≤ p.height) (hw : 2 ≤ p.width) :
    ∃ u2 v2, project p u v = some (u2, v2) ∧
      WFfield u2 p.height p.width ∧ WFfield v2 p.height p.width := by
  obtain ⟨dv, hdv, hdvWF⟩ := divergence_some hu hv hh hw
  obtain ⟨dv2, hdv2, hdv2WF, _⟩ := setBoundary_spec hdvWF hh hw
  obtain ⟨pf0, hpf0, hpf0WF, _⟩ :=
    setBoundary_spec (WFfield_zeros p.height p.width) hh hw
  obtain ⟨pfN, hpfN, hpfNWF⟩ := foldlM_some_of (WFfield · p.height p.width)
    (List.range 20)
    (fun pf _ => do
      let pf ← pSweep p dv2 pf
      setBoundary pf)
    (fun pf k hpf _ => by
      obtain ⟨pf2, hpf2, hpf2WF⟩ := pSweep_some hdv2WF hpf hh hw
      obtain ⟨pf3, hpf3, hpf3WF, _⟩ := setBoundary_spec hpf2WF hh hw
      refine ⟨pf3, ?_, hpf3WF⟩
      simp only [bind, Option.some_bind, hpf2]
      exact hpf3) pf0 hpf0WF
  obtain ⟨u2, v2, huv2, hu2WF, hv2WF⟩ := gradSub_some hpfNWF hu hv hh hw
  obtain ⟨u3, hu3, hu3WF, _⟩ := setBoundary_spec hu2WF hh hw
  obtain ⟨v3, hv3, hv3WF, _⟩ := setBoundary_spec hv2WF hh hw
  refine ⟨u3, v3, ?_, hu3WF, hv3WF⟩
  simp only [bind] at hpfN
  simp only [project, bind, pure, Option.some_bind, hdv, hdv2, hpf0, hpfN, huv2,
    hu3, hv3]

lemma step_some {s : Sim} (hWF : WF s) (hh : 2 ≤ s.params.height)
    (hw : 2 ≤ s.params.width) :
    ∃ s2, step s = some s2 ∧ WF s2 ∧ s2.params = s.params := by
  obtain ⟨hu, hv, hup, hvp, hd⟩ := hWF
  have hc1 : copyInto s.u_prev s.u = some s.u := copyInto_some hup hu
  have hc2 : copyInto s.v_prev s.v = some s.v := copyInto_some hvp hv
  obtain ⟨du, hdu, hduWF⟩ := diffuse_some s.params.viscosity hu hu hh hw
  obtain ⟨dv, hdv, hdvWF⟩ := diffuse_some s.params.viscosity hv hv hh hw
  obtain ⟨pu, pv, hproj, hpuWF, hpvWF⟩ := project_some hduWF hdvWF hh hw
  have hc3 : copyInto s.u pu = some pu := copyInto_some hu hpuWF
  have hc4 : copyInto s.v pv = some pv := copyInto_some hv hpvWF
  obtain ⟨au, hau, hauWF⟩ := advect_some hpuWF hpuWF hpuWF hpvWF hh hw
  obtain ⟨av, hav, havWF⟩ := advect_some hpvWF hpvWF hpuWF hpvWF hh hw
  obtain ⟨pu2, pv2, hproj2, hpu2WF, hpv2WF⟩ := project_some hauWF havWF hh hw
  obtain ⟨dd, hdd, hddWF⟩ := diffuse_some (1 / 100) hd hd hh hw
  obtain ⟨ad, had, hadWF⟩ := advect_some hddWF hddWF hpu2WF hpv2WF hh hw
  refine ⟨⟨s.params, pu2, pv2, pu, pv, ad⟩, ?_,
    ⟨hpu2WF, hpv2WF, hpuWF, hpvWF, hadWF⟩, rfl⟩
  simp only [step, bind, pure, Option.some_bind, hc1, hc2, hdu, hdv, hproj,
    hc3, hc4, hau, hav, hproj2, hdd, had]

/-! ### Claim theorems -/

/-- C2: after any call to `set_boundary` on an `h × w` field (`h, w ≥ 2`),
every cell of row 0, row `h-1`, column 0, and column `w-1` excluding the four
corners is exactly zero, and each corner equals half the sum of its two
orthogonal adjacent boundary neighbors as they stand after this same call,
e.g. `field[0,0] = 0.5 * (field[1,0] + field[0,1])`. -/
theorem C2_setBoundary_edges_and_corners {f : Field} {h w : ℕ}
    (hf : WFfield f h w) (hh : 2 ≤ h) (hw : 2 ≤ w) :
    ∃ g, setBoundary f = some g ∧
      (∀ i j, i < h → j < w → (i = 0 ∨ i = h - 1 ∨ j = 0 ∨ j = w - 1) →
        ¬((i = 0 ∨ i = h - 1) ∧ (j = 0 ∨ j = w - 1)) → getE g i j = 0) ∧
      getE g 0 0 = (1 / 2 : ℚ) * (getE g 1 0 + getE g 0 1) ∧
      getE g 0 (w - 1) = (1 / 2 : ℚ) * (getE g 1 (w - 1) + getE g 0 (w - 2)) ∧
      getE g (h - 1) 0 = (1 / 2 : ℚ) * (getE g (h - 2) 0 + getE g (h - 1) 1) ∧
      getE g (h - 1) (w - 1) =
        (1 / 2 : ℚ) * (getE g (h - 2) (w - 1) + getE g (h - 1) (w - 2)) := by
  obtain ⟨g, hg, hgWF, hgE⟩ := setBoundary_spec hf hh hw
  have hzero : ∀ i j, (i = 0 ∨ i = h - 1 ∨ j = 0 ∨ j = w - 1) → getE g i j = 0 := by
    intro i j hb
    rw [hgE, if_pos hb]
  refine ⟨g, hg, fun i j _ _ hb _ => hzero i j hb, ?_, ?_, ?_, ?_⟩
  · rw [hzero 0 0 (by omega), hzero 1 0 (by omega), hzero 0 1 (by omega)]
    norm_num
  · rw [hzero 0 (w - 1) (by omega), hzero 1 (w - 1) (by omega),
      hzero 0 (w - 2) ?_]
    · norm_num
    · by_cases hw2 : w = 2
      · subst hw2; omega
      · omega
  · rw [hzero (h - 1) 0 (by omega), hzero (h - 2) 0 (by omega),
      hzero (h - 1) 1 (by omega)]
    norm_num
  · rw [hzero (h - 1) (w - 1) (by omega), hzero (h - 2) (w - 1) (by omega),
      hzero (h - 1) (w - 2) (by omega)]
    norm_num

/-- Witness for C2 at a concrete 3 × 3 field. -/
theorem C2_setBoundary_edges_and_corners_witness :
    WFfield ([[1, 2, 3], [4, 5, 6], [7, 8, 9]] : Field) 3 3 ∧
    ∃ g, setBoundary ([[1, 2, 3], [4, 5, 6], [7, 8, 9]] : Field) = some g ∧
      (∀ i j, i < 3 → j < 3 → (i = 0 ∨ i = 3 - 1 ∨ j = 0 ∨ j = 3 - 1) →
        ¬((i = 0 ∨ i = 3 - 1) ∧ (j = 0 ∨ j = 3 - 1)) → getE g i j = 0) ∧
      getE g 0 0 = (1 / 2 : ℚ) * (getE g 1 0 + getE g 0 1) ∧
      getE g 0 (3 - 1) = (1 / 2 : ℚ) * (getE g 1 (3 - 1) + getE g 0 (3 - 2)) ∧
      getE g (3 - 1) 0 = (1 / 2 : ℚ) * (getE g (3 - 2) 0 + getE g (3 - 1) 1) ∧
      getE g (3 - 1) (3 - 1) =
        (1 / 2 : ℚ) * (getE g (3 - 2) (3 - 1) + getE g (3 - 1) (3 - 2)) :=
  ⟨by decide, C2_setBoundary_edges_and_corners (by decide) (by decide) (by decide)⟩

/-- C10: after any call to `_set_boundary` on an `h × w` field with
`h, w ≥ 2`, all four corner cells are exactly zero (the corner formulas read
edge cells already zeroed in the same call), so every boundary cell is
exactly zero on return. -/
theorem C10_setBoundary_corners_zero {f : Field} {h w : ℕ}
    (hf : WFfield f h w) (hh : 2 ≤ h) (hw : 2 ≤ w) :
    ∃ g, setBoundary f = some g ∧
      getE g 0 0 = 0 ∧ getE g 0 (w - 1) = 0 ∧ getE g (h - 1) 0 = 0 ∧
      getE g (h - 1) (w - 1) = 0 ∧
      ∀ i j, (i = 0 ∨ i = h - 1 ∨ j = 0 ∨ j = w - 1) → getE g i j = 0 := by
  obtain ⟨g, hg, hgWF, hgE⟩ := setBoundary_spec hf hh hw
  have hzero : ∀ i j, (i = 0 ∨ i = h - 1 ∨ j = 0 ∨ j = w - 1) →
      getE g i j = 0 := by
    intro i j hb
    rw [hgE, if_pos hb]
  exact ⟨g, hg, hzero 0 0 (by omega), hzero 0 (w - 1) (by omega),
    hzero (h - 1) 0 (by omega), hzero (h - 1) (w - 1) (by omega), hzero⟩

/-- Witness for C10 at a concrete 2 × 2 field. -/
theorem C10_setBoundary_corners_zero_witness :
    WFfield ([[5, 6], [7, 8]] : Field) 2 2 ∧
    ∃ g, setBoundary ([[5, 6], [7, 8]] : Field) = some g ∧
      getE g 0 0 = 0 ∧ getE g 0 (2 - 1) = 0 ∧ getE g (2 - 1) 0 = 0 ∧
      getE g (2 - 1) (2 - 1) = 0 ∧
      ∀ i j, (i = 0 ∨ i = 2 - 1 ∨ j = 0 ∨ j = 2 - 1) → getE g i j = 0 :=
  ⟨by decide, C10_setBoundary_corners_zero (by decide) (by decide) (by decide)⟩

/-- C7: `add_density` and `add_velocity` at coordinates outside
`[0, width) × [0, height)` leave every field of the simulator unchanged and
raise no error. -/
theorem C7_out_of_range_injection_noop (s : Sim) (x y : ℤ) (amount ax ay : ℚ)
    (hout : ¬(0 ≤ x ∧ x < (s.params.width : ℤ) ∧ 0 ≤ y ∧
      y < (s.params.height : ℤ))) :
    addDensity s x y amount = some s ∧ addVelocity s x y ax ay = some s := by
  constructor
  · unfold addDensity
    rw [if_neg hout]
    rfl
  · unfold addVelocity
    rw [if_neg hout]
    rfl

/-- Witness for C7: injection at `(5, 1)` on a 3 × 3 simulator. -/
theorem C7_out_of_range_injection_noop_witness :
    addDensity (init 3 3 (1 / 10) (1 / 10)) 5 1 1 =
      some (init 3 3 (1 / 10) (1 / 10)) ∧
    addVelocity (init 3 3 (1 / 10) (1 / 10)) 5 1 2 3 =
      some (init 3 3 (1 / 10) (1 / 10)) :=
  C7_out_of_range_injection_noop (init 3 3 (1 / 10) (1 / 10)) 5 1 1 2 3
    (by decide)

/-- C4 (code bug): the constructor performs no validation; with the
non-positive time step `dt = -1/10` it completes normally and returns a
simulator holding the invalid configuration, instead of failing fast. -/
theorem C4_init_accepts_nonpositive_dt :
    init 5 5 (1 / 10) (-(1 / 10)) =
      ⟨⟨5, 5, 1 / 10, -(1 / 10)⟩, zeros 5 5, zeros 5 5, zeros 5 5, zeros 5 5,
        zeros 5 5⟩ :=
  rfl

/-- C9: two simulators constructed with the same parameters and driven with
the same call sequence produce identical field states: the semantics is a
deterministic function of the construction arguments and the call list. -/
theorem C9_determinism (width height : ℕ) (viscosity dt : ℚ) (cs : List Call)
    (s1 s2 : Sim) (h1 : s1 = init width height viscosity dt)
    (h2 : s2 = init width height viscosity dt) :
    runCalls s1 cs = runCalls s2 cs := by
  subst h1
  subst h2
  rfl

/-- Witness for C9 on a 3 × 3 simulator and a two-call sequence. -/
theorem C9_determinism_witness :
    runCalls (init 3 3 (1 / 10) (1 / 10)) [Call.addDensity 1 1 1, Call.step] =
      runCalls (init 3 3 (1 / 10) (1 / 10)) [Call.addDensity 1 1 1, Call.step] :=
  C9_determinism 3 3 (1 / 10) (1 / 10) [Call.addDensity 1 1 1, Call.step] _ _
    rfl rfl

lemma addDensity_some {s : Sim} (hWF : WF s) (x y : ℤ) (amount : ℚ) :
    ∃ s2, addDensity s x y amount = some s2 := by
  obtain ⟨hu, hv, hup, hvp, hd⟩ := hWF
  unfold addDensity
  by_cases hin : 0 ≤ x ∧ x < (s.params.width : ℤ) ∧ 0 ≤ y ∧
      y < (s.params.height : ℤ)
  · rw [if_pos hin]
    obtain ⟨hx0, hxw, hy0, hyh⟩ := hin
    have hyn : y.toNat < s.params.height := by omega
    have hxn : x.toNat < s.params.width := by omega
    obtain ⟨d2, hd2, _, _⟩ := fset_spec hd
      (getE s.density y.toNat x.toNat + amount) hyn hxn
    rw [fget_some hd hyn hxn]
    simp only [bind, pure, Option.some_bind, hd2]
    exact ⟨_, rfl⟩
  · rw [if_neg hin]
    exact ⟨s, rfl⟩

lemma addVelocity_some {s : Sim} (hWF : WF s) (x y : ℤ) (ax ay : ℚ) :
    ∃ s2, addVelocity s x y ax ay = some s2 := by
  obtain ⟨hu, hv, hup, hvp, hd⟩ := hWF
  unfold addVelocity
  by_cases hin : 0 ≤ x ∧ x < (s.params.width : ℤ) ∧ 0 ≤ y ∧
      y < (s.params.height : ℤ)
  · rw [if_pos hin]
    obtain ⟨hx0, hxw, hy0, hyh⟩ := hin
    have hyn : y.toNat < s.params.height := by omega
    have hxn : x.toNat < s.params.width := by omega
    obtain ⟨u2, hu2, hu2WF, _⟩ := fset_spec hu
      (getE s.u y.toNat x.toNat + ax) hyn hxn
    obtain ⟨v2, hv2, _, _⟩ := fset_spec hv
      (getE s.v y.toNat x.toNat + ay) hyn hxn
    rw [fget_some hu hyn hxn]
    simp only [bind, pure, Option.some_bind, hu2]
    rw [fget_some hv hyn hxn]
    simp only [bind, pure, Option.some_bind, hv2]
    exact ⟨_, rfl⟩
  · rw [if_neg hin]
    exact ⟨s, rfl⟩

/-- C5 counterexample: a simulator constructed with the positive dimensions
`width = 1`, `height = 3` is not total: `step` fails (the Python code raises
`IndexError` inside `_set_boundary` at `field[0, 1]`). -/
theorem C5_counterexample_width_one :
    step (init 1 3 (1 / 10) (1 / 10)) = none := by decide

/-- C5 (amended): for every well-formed simulator whose width and height are
at least 2, every operation of the interface is total: `step`, `diffuse`,
`project`, `advect`, `set_boundary`, `add_density` and `add_velocity` all run
to completion for all field values. -/
theorem C5_operations_total {s : Sim} (hWF : WF s)
    (hh : 2 ≤ s.params.height) (hw : 2 ≤ s.params.width) :
    (step s).isSome ∧
    (∀ f fp rate, WFfield f s.params.height s.params.width →
      WFfield fp s.params.height s.params.width →
      (diffuse s.params f fp rate).isSome) ∧
    (∀ u v, WFfield u s.params.height s.params.width →
      WFfield v s.params.height s.params.width →
      (project s.params u v).isSome) ∧
    (∀ f fp u v, WFfield f s.params.height s.params.width →
      WFfield fp s.params.height s.params.width →
      WFfield u s.params.height s.params.width →
      WFfield v s.params.height s.params.width →
      (advect s.params f fp u v).isSome) ∧
    (∀ f, WFfield f s.params.height s.params.width →
      (setBoundary f).isSome) ∧
    (∀ x y amount, (addDensity s x y amount).isSome) ∧
    (∀ x y ax ay, (addVelocity s x y ax ay).isSome) := by
  refine ⟨?_, ?_, ?_, ?_, ?_, ?_, ?_⟩
  · obtain ⟨s2, hs2, _, _⟩ := step_some hWF hh hw
    rw [hs2]; rfl
  · intro f fp rate hf hfp
    obtain ⟨g, hg, _⟩ := diffuse_some rate hf hfp hh hw
    rw [hg]; rfl
  · intro u v hu hv
    obtain ⟨u2, v2, hg, _, _⟩ := project_some hu hv hh hw
    rw [hg]; rfl
  · intro f fp u v hf hfp hu hv
    obtain ⟨g, hg, _⟩ := advect_some hf hfp hu hv hh hw
    rw [hg]; rfl
  · intro f hf
    obtain ⟨g, hg, _, _⟩ := setBoundary_spec hf hh hw
    rw [hg]; rfl
  · intro x y amount
    obtain ⟨s2, hs2⟩ := addDensity_some hWF x y amount
    rw [hs2]; rfl
  · intro x y ax ay
    obtain ⟨s2, hs2⟩ := addVelocity_some hWF x y ax ay
    rw [hs2]; rfl

/-- Witness for C5 on a 4 × 4 simulator. -/
theorem C5_operations_total_witness :
    WF (init 4 4 (1 / 10) (1 / 10)) ∧
      (step (init 4 4 (1 / 10) (1 / 10))).isSome :=
  ⟨by decide,
    (C5_operations_total (by decide) (by decide) (by decide)).1⟩

/-! ### C3: the diffusion solver against the specification text -/

/-- Row-major enumeration of the interior cells: increasing row, and within
each row increasing column. -/
def rowMajor (h w : ℕ) : List (ℕ × ℕ) :=
  (interior h).flatMap fun i => (interior w).map fun j => (i, j)

/-- `n` sequential repetitions of a fallible transformation. -/
def iterM {α : Type} (g : α → Option α) : ℕ → α → Option α
  | 0 => fun a => some a
  | n + 1 => fun a => (g a).bind (iterM g n)

/-- One relaxation sweep as the specification words it: visit interior cells
in row-major order and set
`field[i,j] = (field_prev[i,j] + a*(field[i+1,j] + field[i-1,j] + field[i,j+1]
+ field[i,j-1])) / (1 + 4*a)`, reading neighbor values already updated
earlier in the same sweep. -/
def sweepSpec (p : Params) (a : ℚ) (field_prev f : Field) : Option Field :=
  (rowMajor p.height p.width).foldlM (fun f ij => do
    let c ← fget field_prev ij.1 ij.2
    let n1 ← fget f (ij.1 + 1) ij.2
    let n2 ← fget f (ij.1 - 1) ij.2
    let n3 ← fget f ij.1 (ij.2 + 1)
    let n4 ← fget f ij.1 (ij.2 - 1)
    fset f ij.1 ij.2 ((c + a * (n1 + n2 + n3 + n4)) / (1 + 4 * a))) f

/-- `diffuse` as the specification words it: overwrite `field` with a copy of
`field_prev`, then perform exactly 20 Gauss-Seidel sweeps with
`a = dt * rate * width * height`, applying `set_boundary` after every sweep. -/
def diffuseSpec (p : Params) (field field_prev : Field) (rate : ℚ) :
    Option Field := do
  let a := p.dt * rate * (p.width : ℚ) * (p.height : ℚ)
  let f ← copyInto field field_prev
  iterM (fun f => (sweepSpec p a field_prev f).bind setBoundary) 20 f

lemma foldlM_const_eq_iterM {α β : Type} (l : List α) (g : β → Option β) :
    ∀ b, l.foldlM (fun b _ => g b) b = iterM g l.length b := by
  induction l with
  | nil => intro b; rfl
  | cons a t ih =>
      intro b
      rw [List.foldlM_cons, List.length_cons]
      show (g b).bind (fun b2 => t.foldlM (fun b _ => g b) b2) = _
      unfold iterM
      exact congrArg _ (funext ih)

lemma foldlM_map {α γ β : Type} (l : List α) (e : α → γ) (g : β → γ → Option β) :
    ∀ b, (l.map e).foldlM g b = l.foldlM (fun b x => g b (e x)) b := by
  induction l with
  | nil => intro b; rfl
  | cons a t ih =>
      intro b
      rw [List.map_cons, List.foldlM_cons, List.foldlM_cons]
      show (g b (e a)).bind _ = (g b (e a)).bind _
      exact congrArg _ (funext ih)

lemma foldlM_flatMap_map {β : Type} (ri rj : List ℕ)
    (g : β → ℕ × ℕ → Option β) :
    ∀ b, ((ri.flatMap fun i => rj.map fun j => (i, j)).foldlM g b) =
      ri.foldlM (fun b i => rj.foldlM (fun b j => g b (i, j)) b) b := by
  induction ri with
  | nil => intro b; rfl
  | cons a t ih =>
      intro b
      rw [List.flatMap_cons, List.foldlM_append, List.foldlM_cons]
      show ((rj.map fun j => (a, j)).foldlM g b).bind _ =
        (rj.foldlM (fun b j => g b (a, j)) b).bind _
      rw [foldlM_map]
      exact congrArg _ (funext ih)

/-! ### C6: advection by a zero velocity field -/

lemma getE_zeros (h w i j : ℕ) : getE (zeros h w) i j = 0 := by
  unfold getE zeros
  rcases Nat.lt_or_ge i h with hi | hi
  · rcases Nat.lt_or_ge j w with hj | hj
    · simp [List.getElem?_replicate, hi, hj]
    · simp [List.getElem?_replicate, hi, List.getElem?_eq_none
        (by simpa using hj : (List.replicate w (0 : ℚ)).length ≤ j)]
  · simp [List.getElem?_replicate, Nat.not_lt.mpr hi]

/-- The advection body at an interior cell degenerates to an exact copy when
the sampling velocity is identically zero. -/
lemma advectCell_zero {p : Params} {fp u v f : Field} (dt0 : ℚ)
    (hfp : WFfield fp p.height p.width) (hu : WFfield u p.height p.width)
    (hv : WFfield v p.height p.width) (hf : WFfield f p.height p.width)
    (hu0 : ∀ i j, getE u i j = 0) (hv0 : ∀ i j, getE v i j = 0)
    {i j : ℕ} (hi : 1 ≤ i ∧ i + 1 < p.height) (hj : 1 ≤ j ∧ j + 1 < p.width) :
    ∃ g, advectCell p dt0 fp u v f i j = some g ∧ WFfield g p.height p.width ∧
      ∀ i2 j2, getE g i2 j2 =
        if i2 = i ∧ j2 = j then getE fp i j else getE f i2 j2 := by
  have hw : 2 ≤ p.width := by omega
  have hh : 2 ≤ p.height := by omega
  have hwq : (j : ℚ) + 2 ≤ (p.width : ℚ) := by exact_mod_cast hj.2
  have hhq : (i : ℚ) + 2 ≤ (p.height : ℚ) := by exact_mod_cast hi.2
  have hjq : (1 : ℚ) ≤ (j : ℚ) := by exact_mod_cast hj.1
  have hiq : (1 : ℚ) ≤ (i : ℚ) := by exact_mod_cast hi.1
  have hx : max (1 / 2) (min ((p.width : ℚ) - 3 / 2) ((j : ℚ) - dt0 * 0)) =
      (j : ℚ) := by
    rw [mul_zero, sub_zero, min_eq_right (by linarith), max_eq_right (by linarith)]
  have hy : max (1 / 2) (min ((p.height : ℚ) - 3 / 2) ((i : ℚ) - dt0 * 0)) =
      (i : ℚ) := by
    rw [mul_zero, sub_zero, min_eq_right (by linarith), max_eq_right (by linarith)]
  obtain ⟨g, hg, hgWF, hgE⟩ := fset_spec hf (getE fp i j)
    (show i < p.height by omega) (show j < p.width by omega)
  refine ⟨g, ?_, hgWF, hgE⟩
  unfold advectCell
  have ru : fget u i j = some 0 := by
    rw [fget_some hu (by omega) (by omega), hu0]
  have rv : fget v i j = some 0 := by
    rw [fget_some hv (by omega) (by omega), hv0]
  rw [ru, rv]
  simp only [bind, pure, Option.some_bind, hx, hy, Int.floor_natCast,
    Int.toNat_natCast]
  have r00 : fget fp i j = some (getE fp i j) :=
    fget_some hfp (by omega) (by omega)
  have r01 : fget fp i (j + 1) = some (getE fp i (j + 1)) :=
    fget_some hfp (by omega) (by omega)
  have r10 : fget fp (i + 1) j = some (getE fp (i + 1) j) :=
    fget_some hfp (by omega) (by omega)
  have r11 : fget fp (i + 1) (j + 1) = some (getE fp (i + 1) (j + 1)) :=
    fget_some hfp (by omega) (by omega)
  rw [r00, r01, r10, r11]
  simp only [bind, pure, Option.some_bind]
  rw [show (1 - ((i : ℚ) - (i : ℚ))) * ((1 - ((j : ℚ) - (j : ℚ))) * getE fp i j +
      ((j : ℚ) - (j : ℚ)) * getE fp i (j + 1)) +
      ((i : ℚ) - (i : ℚ)) * ((1 - ((j : ℚ) - (j : ℚ))) * getE fp (i + 1) j +
      ((j : ℚ) - (j : ℚ)) * getE fp (i + 1) (j + 1)) = getE fp i j from by ring]
  exact hg

/-- A fold over one row of cells whose written values do not depend on the
accumulating field overwrites exactly those cells. -/
lemma row_write_char {h w : ℕ} (B : Field → ℕ → ℕ → Option Field)
    (V : ℕ → ℕ → ℚ) (a : ℕ) (rj : List ℕ)
    (hB : ∀ f j, WFfield f h w → j ∈ rj → ∃ g, B f a j = some g ∧
      WFfield g h w ∧ ∀ i2 j2, getE g i2 j2 =
        if i2 = a ∧ j2 = j then V a j else getE f i2 j2) :
    ∀ f, WFfield f h w → ∃ g, rj.foldlM (fun f j => B f a j) f = some g ∧
      WFfield g h w ∧ ∀ i2 j2, getE g i2 j2 =
        if i2 = a ∧ j2 ∈ rj then V a j2 else getE f i2 j2 := by
  induction rj with
  | nil =>
      intro f hf
      refine ⟨f, rfl, hf, fun i2 j2 => ?_⟩
      rw [if_neg (by simp)]
  | cons c t ih =>
      intro f hf
      obtain ⟨f1, hf1, hf1WF, hf1E⟩ := hB f c hf (by simp)
      obtain ⟨g, hg, hgWF, hgE⟩ :=
        ih (fun f j hfj hj => hB f j hfj (by simp [hj])) f1 hf1WF
      refine ⟨g, ?_, hgWF, fun i2 j2 => ?_⟩
      · rw [List.foldlM_cons, hf1]
        simpa only [bind, Option.some_bind] using hg
      · rw [hgE, hf1E]
        by_cases hmem : i2 = a ∧ j2 ∈ c :: t
        · rw [if_pos hmem]
          rcases List.mem_cons.mp hmem.2 with hc | ht
          · by_cases htt : j2 ∈ t
            · rw [if_pos ⟨hmem.1, htt⟩]
            · rw [if_neg (by tauto), if_pos ⟨hmem.1, hc⟩]
              rw [hc]
          · rw [if_pos ⟨hmem.1, ht⟩]
        · have h1 : ¬(i2 = a ∧ j2 ∈ t) := fun hc => hmem ⟨hc.1, by simp [hc.2]⟩
          have h2 : ¬(i2 = a ∧ j2 = c) := fun hc => hmem ⟨hc.1, by simp [hc.2]⟩
          rw [if_neg h1, if_neg h2, if_neg hmem]

/-- The nested interior fold of `advect`-style writes overwrites exactly the
enumerated cells with state-independent values. -/
lemma nested_write_char {h w : ℕ} (B : Field → ℕ → ℕ → Option Field)
    (V : ℕ → ℕ → ℚ) (ri rj : List ℕ)
    (hB : ∀ f i j, WFfield f h w → i ∈ ri → j ∈ rj → ∃ g, B f i j = some g ∧
      WFfield g h w ∧ ∀ i2 j2, getE g i2 j2 =
        if i2 = i ∧ j2 = j then V i j else getE f i2 j2) :
    ∀ f, WFfield f h w →
      ∃ g, ri.foldlM (fun f i => rj.foldlM (fun f j => B f i j) f) f = some g ∧
      WFfield g h w ∧ ∀ i2 j2, getE g i2 j2 =
        if i2 ∈ ri ∧ j2 ∈ rj then V i2 j2 else getE f i2 j2 := by
  induction ri with
  | nil =>
      intro f hf
      refine ⟨f, rfl, hf, fun i2 j2 => ?_⟩
      rw [if_neg (by simp)]
  | cons a t ih =>
      intro f hf
      obtain ⟨f1, hf1, hf1WF, hf1E⟩ := row_write_char B V a rj
        (fun f j hfj hj => hB f a j hfj (by simp) hj) f hf
      obtain ⟨g, hg, hgWF, hgE⟩ :=
        ih (fun f i j hfj hi hj => hB f i j hfj (by simp [hi]) hj) f1 hf1WF
      refine ⟨g, ?_, hgWF, fun i2 j2 => ?_⟩
      · rw [List.foldlM_cons, hf1]
        simpa only [bind, Option.some_bind] using hg
      · rw [hgE, hf1E]
        by_cases hmem : i2 ∈ a :: t ∧ j2 ∈ rj
        · rw [if_pos hmem]
          rcases List.mem_cons.mp hmem.1 with hc | ht
          · by_cases htt : i2 ∈ t
            · rw [if_pos ⟨htt, hmem.2⟩]
            · rw [if_neg (by tauto), if_pos ⟨hc, hmem.2⟩]
              rw [hc]
          · rw [if_pos ⟨ht, hmem.2⟩]
        · have h1 : ¬(i2 ∈ t ∧ j2 ∈ rj) := fun hc => hmem ⟨by simp [hc.1], hc.2⟩
          have h2 : ¬(i2 = a ∧ j2 ∈ rj) := fun hc => hmem ⟨by simp [hc.1], hc.2⟩
          rw [if_neg h1, if_neg h2, if_neg hmem]

/-- C6: if the velocity fields `u` and `v` are identically zero, `advect`
sets every interior cell of `field` to exactly the corresponding value of
`field_prev`, and the only other change is the boundary re-application
(every boundary cell is set to zero by the final `set_boundary`). -/
theorem C6_advect_zero_velocity_is_copy {p : Params} {field fp u v : Field}
    (hf : WFfield field p.height p.width) (hfp : WFfield fp p.height p.width)
    (hu : WFfield u p.height p.width) (hv : WFfield v p.height p.width)
    (hu0 : ∀ i j, getE u i j = 0) (hv0 : ∀ i j, getE v i j = 0)
    (hh : 2 ≤ p.height) (hw : 2 ≤ p.width) :
    ∃ g, advect p field fp u v = some g ∧
      (∀ i j, 1 ≤ i → i + 1 < p.height → 1 ≤ j → j + 1 < p.width →
        getE g i j = getE fp i j) ∧
      (∀ i j, (i = 0 ∨ i = p.height - 1 ∨ j = 0 ∨ j = p.width - 1) →
        getE g i j = 0) := by
  obtain ⟨F, hF, hFWF, hFE⟩ := nested_write_char
    (fun f i j => advectCell p (p.dt * ((Nat.sqrt (p.width * p.height) : ℕ) : ℚ))
      fp u v f i j)
    (fun i j => getE fp i j) (interior p.height) (interior p.width)
    (fun f i j hfj hi hj =>
      advectCell_zero _ hfp hu hv hfj hu0 hv0 (mem_interior hi) (mem_interior hj))
    field hf
  obtain ⟨g, hg, hgWF, hgE⟩ := setBoundary_spec hFWF hh hw
  refine ⟨g, ?_, ?_, ?_⟩
  · simp only [advect]
    rw [hF]
    simpa only [bind, Option.some_bind] using hg
  · intro i j hi1 hi2 hj1 hj2
    rw [hgE, if_neg (by omega), hFE,
      if_pos ⟨List.mem_range'_1.mpr (by omega), List.mem_range'_1.mpr (by omega)⟩]
  · intro i j hb
    rw [hgE, if_pos hb]

/-- Witness for C6 on a concrete 4 × 4 field with zero velocity. -/
theorem C6_advect_zero_velocity_is_copy_witness :
    ∃ g, advect ⟨4, 4, 1 / 10, 1 / 10⟩ (zeros 4 4)
        ([[1, 2, 3, 4], [5, 6, 7, 8], [9, 10, 11, 12], [13, 14, 15, 16]] : Field)
        (zeros 4 4) (zeros 4 4) = some g ∧
      (∀ i j, 1 ≤ i → i + 1 < (4 : ℕ) → 1 ≤ j → j + 1 < (4 : ℕ) →
        getE g i j = getE
          ([[1, 2, 3, 4], [5, 6, 7, 8], [9, 10, 11, 12], [13, 14, 15, 16]] : Field)
          i j) ∧
      (∀ i j, (i = 0 ∨ i = 4 - 1 ∨ j = 0 ∨ j = 4 - 1) → getE g i j = 0) :=
  C6_advect_zero_velocity_is_copy (by decide) (by decide) (by decide) (by decide)
    (fun i j => getE_zeros 4 4 i j) (fun i j => getE_zeros 4 4 i j)
    (by decide) (by decide)

/-! ### C1: divergence reduction by the projection step -/

/-- A 4 × 4 parameter set with square grid (so that `np.sqrt(width * height)`
is exact). -/
def C1p : Params := ⟨4, 4, 1 / 10, 1 / 10⟩

/-- A nonzero horizontal velocity field: constant 1 with a small extra source
at the interior cell `(1, 1)`.  Its interior divergence before projection is
nonzero (only at cell `(1, 2)`). -/
def C1cexU : Field :=
  [[1, 1, 1, 1], [1, 1 + 1 / 1000, 1, 1], [1, 1, 1, 1], [1, 1, 1, 1]]

/-- A constant vertical velocity field. -/
def C1cexV : Field := [[1, 1, 1, 1], [1, 1, 1, 1], [1, 1, 1, 1], [1, 1, 1, 1]]

/-- A velocity field with a single interior impulse `u[1][2] = 1`. -/
def C1srcU : Field := [[0, 0, 0, 0], [0, 0, 1, 0], [0, 0, 0, 0], [0, 0, 0, 0]]

lemma interior_four : interior 4 = [1, 2] := by decide

lemma list_range_twenty : List.range 20 =
    [0, 1, 2, 3, 4, 5, 6, 7, 8, 9, 10, 11, 12, 13, 14, 15, 16, 17, 18, 19] := by
  decide

set_option maxHeartbeats 10000000 in
lemma C1cex_before_eval :
    (divergence C1p C1cexU C1cexV).map (interiorL2Sq C1p) =
      some (1 / 64000000) := by
  norm_num [divergence, setBoundary, zeroRow, zeroCol, setCorner, fget, fset,
    getE, interiorL2Sq, Option.bind, List.replicate, C1p, C1cexU, C1cexV,
    interior_four, list_range_twenty, shape, zeros, List.foldlM_cons,
    List.foldlM_nil]

set_option maxHeartbeats 40000000 in
lemma C1cex_after_eval :
    ((project C1p C1cexU C1cexV).bind fun uv =>
        (divergence C1p uv.1 uv.2).map (interiorL2Sq C1p)) =
      some (123794015279008215725433385240349 /
        990352031428304219919299379200000) := by
  norm_num [project, divergence, pSweep, gradSub, setBoundary, zeroRow,
    zeroCol, setCorner, fget, fset, getE, interiorL2Sq, Option.bind,
    List.replicate, C1p, C1cexU, C1cexV, interior_four, list_range_twenty,
    shape, zeros, List.foldlM_cons, List.foldlM_nil]

set_option maxHeartbeats 10000000 in
lemma C1src_before_eval :
    (divergence C1p C1srcU (zeros 4 4)).map (interiorL2Sq C1p) =
      some (1 / 64) := by
  norm_num [divergence, setBoundary, zeroRow, zeroCol, setCorner, fget, fset,
    getE, interiorL2Sq, Option.bind, List.replicate, C1p, C1srcU,
    interior_four, list_range_twenty, shape, zeros, List.foldlM_cons,
    List.foldlM_nil]

set_option maxHeartbeats 40000000 in
lemma C1src_after_eval :
    ((project C1p C1srcU (zeros 4 4)).bind fun uv =>
        (divergence C1p uv.1 uv.2).map (interiorL2Sq C1p)) =
      some (227009403905451572650894225 / 19807040628566084398385987584) := by
  norm_num [project, divergence, pSweep, gradSub, setBoundary, zeroRow,
    zeroCol, setCorner, fget, fset, getE, interiorL2Sq, Option.bind,
    List.replicate, C1p, C1srcU, interior_four, list_range_twenty,
    shape, zeros, List.foldlM_cons, List.foldlM_nil]

/-- C1 counterexample: a nonzero velocity field with an interior source
(nonzero interior velocity at `(1, 1)` and nonzero interior divergence before
the call) for which the squared L2 norm of the interior divergence after
`project()` is strictly LARGER than before — the boundary pass of `project`
re-creates divergence along the walls — refuting the claimed strict
decrease. -/
theorem C1_counterexample_divergence_grows :
    getE C1cexU 1 1 ≠ 0 ∧
    (divergence C1p C1cexU C1cexV).map (interiorL2Sq C1p) =
      some (1 / 64000000) ∧
    (1 / 64000000 : ℚ) ≠ 0 ∧
    ((project C1p C1cexU C1cexV).bind fun uv =>
        (divergence C1p uv.1 uv.2).map (interiorL2Sq C1p)) =
      some (123794015279008215725433385240349 /
        990352031428304219919299379200000) ∧
    ¬((123794015279008215725433385240349 /
        990352031428304219919299379200000 : ℚ) < 1 / 64000000) := by
  refine ⟨?_, C1cex_before_eval, by norm_num, C1cex_after_eval, by norm_num⟩
  norm_num [getE, C1cexU]

/-- C1 (amended): `project()` does not reduce the interior-divergence L2 norm
for every nonzero velocity field with an interior source — for the
near-constant field `C1cexU, C1cexV` it strictly increases it — but for some
such fields it does: for the single interior impulse `C1srcU` the squared L2
norm strictly decreases from `1/64` and remains nonzero (reduced toward zero
but not exactly to zero). -/
theorem C1_amended_divergence_reduction :
    ((divergence C1p C1srcU (zeros 4 4)).map (interiorL2Sq C1p) =
        some (1 / 64) ∧
      ((project C1p C1srcU (zeros 4 4)).bind fun uv =>
          (divergence C1p uv.1 uv.2).map (interiorL2Sq C1p)) =
        some (227009403905451572650894225 / 19807040628566084398385987584) ∧
      (0 : ℚ) < 227009403905451572650894225 / 19807040628566084398385987584 ∧
      (227009403905451572650894225 / 19807040628566084398385987584 : ℚ) <
        1 / 64) ∧
    ((divergence C1p C1cexU C1cexV).map (interiorL2Sq C1p) =
        some (1 / 64000000) ∧
      ((project C1p C1cexU C1cexV).bind fun uv =>
          (divergence C1p uv.1 uv.2).map (interiorL2Sq C1p)) =
        some (123794015279008215725433385240349 /
          990352031428304219919299379200000) ∧
      (1 / 64000000 : ℚ) < 123794015279008215725433385240349 /
        990352031428304219919299379200000) :=
  ⟨⟨C1src_before_eval, C1src_after_eval, by norm_num, by norm_num⟩,
    ⟨C1cex_before_eval, C1cex_after_eval, by norm_num⟩⟩

/-! ### C8: the density field never influences velocity -/

lemma stepN_succ (n : ℕ) (s : Sim) : stepN (n + 1) s = (step s).bind (stepN n) := by
  unfold stepN
  rw [List.replicate_succ, List.foldlM_cons]
  rfl

/-- One step on two simulators that agree on parameters and all velocity
fields (densities arbitrary): both succeed and the resulting velocity fields
coincide. -/
lemma step_vel_eq {s1 s2 : Sim} (hWF1 : WF s1) (hWF2 : WF s2)
    (hp : s1.params = s2.params) (hu : s1.u = s2.u) (hv : s1.v = s2.v)
    (hup : s1.u_prev = s2.u_prev) (hvp : s1.v_prev = s2.v_prev)
    (hh : 2 ≤ s1.params.height) (hw : 2 ≤ s1.params.width) :
    ∃ t1 t2, step s1 = some t1 ∧ step s2 = some t2 ∧ WF t1 ∧ WF t2 ∧
      t1.params = s1.params ∧ t2.params = s2.params ∧
      t1.u = t2.u ∧ t1.v = t2.v ∧ t1.u_prev = t2.u_prev ∧
      t1.v_prev = t2.v_prev := by
  obtain ⟨p, u, v, up, vp, d1⟩ := s1
  obtain ⟨p2, u2, v2, up2, vp2, d2⟩ := s2
  simp only at hp hu hv hup hvp hh hw
  subst hp
  subst hu
  subst hv
  subst hup
  subst hvp
  obtain ⟨huW, hvW, hupW, hvpW, hd1W⟩ := hWF1
  obtain ⟨_, _, _, _, hd2W⟩ := hWF2
  simp only at huW hvW hupW hvpW hd1W hd2W
  have hc1 : copyInto up u = some u := copyInto_some hupW huW
  have hc2 : copyInto vp v = some v := copyInto_some hvpW hvW
  obtain ⟨du, hdu, hduWF⟩ := diffuse_some p.viscosity huW huW hh hw
  obtain ⟨dv, hdv, hdvWF⟩ := diffuse_some p.viscosity hvW hvW hh hw
  obtain ⟨pu, pv, hproj, hpuWF, hpvWF⟩ := project_some hduWF hdvWF hh hw
  have hc3 : copyInto u pu = some pu := copyInto_some huW hpuWF
  have hc4 : copyInto v pv = some pv := copyInto_some hvW hpvWF
  obtain ⟨au, hau, hauWF⟩ := advect_some hpuWF hpuWF hpuWF hpvWF hh hw
  obtain ⟨av, hav, havWF⟩ := advect_some hpvWF hpvWF hpuWF hpvWF hh hw
  obtain ⟨pu2, pv2, hproj2, hpu2WF, hpv2WF⟩ := project_some hauWF havWF hh hw
  obtain ⟨dd1, hdd1, hdd1WF⟩ := diffuse_some (1 / 100) hd1W hd1W hh hw
  obtain ⟨ad1, had1, had1WF⟩ := advect_some hdd1WF hdd1WF hpu2WF hpv2WF hh hw
  obtain ⟨dd2, hdd2, hdd2WF⟩ := diffuse_some (1 / 100) hd2W hd2W hh hw
  obtain ⟨ad2, had2, had2WF⟩ := advect_some hdd2WF hdd2WF hpu2WF hpv2WF hh hw
  refine ⟨⟨p, pu2, pv2, pu, pv, ad1⟩, ⟨p, pu2, pv2, pu, pv, ad2⟩, ?_, ?_,
    ⟨hpu2WF, hpv2WF, hpuWF, hpvWF, had1WF⟩,
    ⟨hpu2WF, hpv2WF, hpuWF, hpvWF, had2WF⟩, rfl, rfl, rfl, rfl, rfl, rfl⟩
  · simp only [step, bind, pure, Option.some_bind, hc1, hc2, hdu, hdv, hproj,
      hc3, hc4, hau, hav, hproj2, hdd1, had1]
  · simp only [step, bind, pure, Option.some_bind, hc1, hc2, hdu, hdv, hproj,
      hc3, hc4, hau, hav, hproj2, hdd2, had2]

/-- C8: the density field never influences velocity.  Two simulators with
identical parameters and identical `u`, `v`, `u_prev`, `v_prev` fields but
arbitrarily different (well-formed) density fields have identical `u` and `v`
fields (and snapshots) after any number of `step()` calls. -/
theorem C8_density_never_influences_velocity {n : ℕ} {s1 s2 : Sim}
    (hWF1 : WF s1) (hWF2 : WF s2) (hp : s1.params = s2.params)
    (hu : s1.u = s2.u) (hv : s1.v = s2.v) (hup : s1.u_prev = s2.u_prev)
    (hvp : s1.v_prev = s2.v_prev)
    (hh : 2 ≤ s1.params.height) (hw : 2 ≤ s1.params.width) :
    ∃ t1 t2, stepN n s1 = some t1 ∧ stepN n s2 = some t2 ∧
      t1.u = t2.u ∧ t1.v = t2.v ∧ t1.u_prev = t2.u_prev ∧
      t1.v_prev = t2.v_prev := by
  induction n generalizing s1 s2 with
  | zero => exact ⟨s1, s2, rfl, rfl, hu, hv, hup, hvp⟩
  | succ n ih =>
      obtain ⟨t1, t2, ht1, ht2, hWFt1, hWFt2, hpt1, hpt2, htu, htv, htup, htvp⟩ :=
        step_vel_eq hWF1 hWF2 hp hu hv hup hvp hh hw
      have hpt : t1.params = t2.params := by rw [hpt1, hpt2, hp]
      obtain ⟨r1, r2, hr1, hr2, hru, hrv, hrup, hrvp⟩ :=
        ih hWFt1 hWFt2 hpt htu htv htup htvp (by rw [hpt1]; exact hh)
          (by rw [hpt1]; exact hw)
      refine ⟨r1, r2, ?_, ?_, hru, hrv, hrup, hrvp⟩
      · rw [stepN_succ, ht1]
        simpa only [bind, Option.some_bind] using hr1
      · rw [stepN_succ, ht2]
        simpa only [bind, Option.some_bind] using hr2

/-- Witness for C8: a 4 × 4 simulator against a copy whose density differs. -/
theorem C8_density_never_influences_velocity_witness :
    ∃ t1 t2,
      stepN 2 (init 4 4 (1 / 10) (1 / 10)) = some t1 ∧
      stepN 2 ⟨⟨4, 4, 1 / 10, 1 / 10⟩, zeros 4 4, zeros 4 4, zeros 4 4, zeros 4 4,
        [[1, 2, 3, 4], [5, 6, 7, 8], [9, 10, 11, 12], [13, 14, 15, 16]]⟩ =
        some t2 ∧
      t1.u = t2.u ∧ t1.v = t2.v ∧ t1.u_prev = t2.u_prev ∧
      t1.v_prev = t2.v_prev :=
  C8_density_never_influences_velocity (by decide) (by decide) rfl
    rfl rfl rfl rfl (by decide) (by decide)

/-- C3: `diffuse(field, field_prev, rate)` is exactly the procedure stated in
the specification: it overwrites `field` with a copy of `field_prev`, then
performs exactly 20 Gauss-Seidel sweeps visiting interior cells in row-major
order with the update formula with `a = dt * rate * width * height`, reading
already-updated neighbors in the same sweep, and applies `set_boundary` after
every one of the 20 sweeps. -/
theorem C3_diffuse_refines_spec (p : Params) (field field_prev : Field)
    (rate : ℚ) :
    diffuse p field field_prev rate = diffuseSpec p field field_prev rate := by
  simp only [diffuse, diffuseSpec, sweepSpec, rowMajor, bind]
  congr 1
  funext f
  rw [foldlM_const_eq_iterM (List.range 20)
    (fun f => ((interior p.height).foldlM (fun f i =>
      (interior p.width).foldlM (fun f j =>
        diffuseCell (p.dt * rate * (p.width : ℚ) * (p.height : ℚ))
          field_prev f i j) f) f).bind setBoundary),
    List.length_range]
  congr 1
  funext f2
  congr 1
  rw [foldlM_flatMap_map]
  rfl

end NS
